import Mathlib

/-!
Verification of the nitpix task-queue persistence engine and dispatch loop.

The development shallowly embeds the TypeScript sources:
* `server/queue.ts` (`QueueManager`): durable single-document queue store with
  backup/recovery (`read`/`write`), field-validated updates (`updateTask`),
  priority selection (`getNextPending`), and screenshot artifact validation.
* `server/index.ts`: the express routes that manage the ephemeral per-task
  activity map (`PUT /api/tasks/:id`, `POST /api/tasks/:id/cancel`,
  `POST /api/tasks/:id/after-screenshot`, activity endpoints).
* `watcher.ts` (`startWatcher`): the dispatch loop (`kickProcessing`,
  `processTask`, `enqueue`) that spawns the agent subprocess.

Conventions of the embedding:
* ISO-8601 timestamp strings are modelled as `Nat` epoch milliseconds
  (`new Date(s).getTime()` is an order isomorphism on the produced strings).
* Runtime string enums (`status`) stay `String`, matching the dynamic
  checks (`VALID_STATUSES.has(...)`, `t.status === "pending"`) in the source;
  `priority` is typed (`"high" | "medium" | "low"` in `types.ts`).
* File-system faults other than the modelled corruption/absence states are
  outside the model: `readFile`/`writeFile`/`rename`/`copyFile` succeed.
* A file on disk is `absent`, `corrupt` (unparseable bytes) or `valid q`
  (the JSON serialization of queue document `q`).
-/

namespace Nitpix

/-- `TaskPriority` from `types.ts`: `"high" | "medium" | "low"`. -/
inductive TaskPriority
  | high
  | medium
  | low
  deriving DecidableEq

/-- `TaskAttempt` from `types.ts`: an archived rejected cycle of agent work. -/
structure TaskAttempt where
  agentNotes : String
  filesModified : List String
  retryReason : String
  afterScreenshot : Option String
  timestamp : Nat
  deriving DecidableEq

/-- `Task` from `types.ts`. Timestamps are epoch milliseconds; `status` is the
runtime string (`"pending" | "in_progress" | "review" | "done"` when valid).
The `element`/`page`/`region` location blobs are never read or written by the
queue store operations under verification and are elided. -/
structure Task where
  id : String
  createdAt : Nat
  updatedAt : Nat
  url : String
  note : String
  category : String
  priority : TaskPriority
  status : String
  screenshotPath : String
  agentNotes : String
  filesModified : List String
  afterScreenshot : Option String
  attempts : List TaskAttempt
  deriving DecidableEq

/-- `Queue` from `types.ts`: the single durable queue document. -/
structure Queue where
  version : Nat
  lastUpdated : Nat
  items : List Task
  deriving DecidableEq

/-- `emptyQueue()` from `queue.ts`. -/
def emptyQueue (now : Nat) : Queue :=
  { version := 1, lastUpdated := now, items := [] }

/-- Parse result of a file's bytes: either unparseable junk or the JSON
serialization of a queue document. -/
inductive FileContent
  | corrupt
  | valid (q : Queue)
  deriving DecidableEq

/-- The two files `QueueManager` owns: `queue.json` (primary) and
`queue.json.bak` (backup). `none` models an absent file. -/
structure FSState where
  primary : Option FileContent
  backup : Option FileContent
  deriving DecidableEq

/-- `QueueManager.write(queue)` from `queue.ts`: stamps `lastUpdated`, copies
the current primary file onto the backup path when the primary exists
(`copyFile` copies the raw bytes, parseable or not), then atomically replaces
the primary with the new serialization (temp file + `rename`). -/
def writeQueue (fs : FSState) (q : Queue) (now : Nat) : FSState :=
  let q' := { q with lastUpdated := now }
  let backup' :=
    match fs.primary with
    | some c => some c
    | none => fs.backup
  { primary := some (FileContent.valid q'), backup := backup' }

/-- `QueueManager.read()` from `queue.ts`: parse the primary; on failure try
the backup, and when the backup parses, rewrite the primary with the backup's
bytes (self-healing) and return it; otherwise (file absent, or corrupt with no
valid backup) return a fresh empty document. Never throws. -/
def readQueue (fs : FSState) (now : Nat) : Queue × FSState :=
  match fs.primary with
  | some (FileContent.valid q) => (q, fs)
  | _ =>
    match fs.backup with
    | some (FileContent.valid qb) =>
      (qb, { fs with primary := some (FileContent.valid qb) })
    | _ => (emptyQueue now, fs)

/-- Overwrite the primary file with unparseable bytes (external corruption). -/
def corruptPrimary (fs : FSState) : FSState :=
  { fs with primary := some FileContent.corrupt }

/-- A file that `read()` cannot use: absent, or present but unparseable. -/
def unreadable (c : Option FileContent) : Prop :=
  c = none ∨ c = some FileContent.corrupt

instance (c : Option FileContent) : Decidable (unreadable c) := by
  unfold unreadable
  infer_instance

/-- `PRIORITY_ORDER` from `queue.ts`: `{ high: 0, medium: 1, low: 2 }`. -/
def PRIORITY_ORDER : TaskPriority → Nat
  | TaskPriority.high => 0
  | TaskPriority.medium => 1
  | TaskPriority.low => 2

/-- The comparator passed to `sort` in `QueueManager.getNextPending`:
priority-tier difference first, ascending creation time on equal tiers. -/
def taskCmp (a b : Task) : Int :=
  let pd : Int := (PRIORITY_ORDER a.priority : Int) - PRIORITY_ORDER b.priority
  if pd ≠ 0 then pd else (a.createdAt : Int) - b.createdAt

/-- The non-strict order induced by `taskCmp` (comparator result `≤ 0`),
i.e. "sorts no later than". -/
def taskR (a b : Task) : Prop := taskCmp a b ≤ 0

instance : DecidableRel taskR := fun _ _ => Int.decLe _ _

/-- `QueueManager.getNextPending()` from `queue.ts`: filter the document's
items to `status === "pending"`, sort with `taskCmp` (a stable sort — modelled
by insertion sort), and return the first element or `null`. -/
def getNextPending (q : Queue) : Option Task :=
  (List.insertionSort taskR (q.items.filter fun t => t.status == "pending")).head?

/-- `VALID_STATUSES` from `queue.ts`. -/
def VALID_STATUSES : List String := ["pending", "in_progress", "review", "done"]

/-- `VALID_UPDATE_FIELDS` from `queue.ts`: the update allow-list. -/
def VALID_UPDATE_FIELDS : List String :=
  ["status", "agentNotes", "filesModified", "afterScreenshot", "attempts",
   "note", "category", "priority"]

/-- One key/value entry of the dynamic `Partial<Task>` payload handed to
`QueueManager.updateTask`. Each constructor is a field name paired with a
value of that field's runtime type; duplicates and non-allow-listed keys are
permitted, exactly as in a raw JSON body. -/
inductive UpdateField
  | status (v : String)
  | agentNotes (v : String)
  | filesModified (v : List String)
  | afterScreenshot (v : Option String)
  | attempts (v : List TaskAttempt)
  | note (v : String)
  | category (v : String)
  | priority (v : TaskPriority)
  | id (v : String)
  | createdAt (v : Nat)
  | updatedAt (v : Nat)
  | url (v : String)
  | screenshotPath (v : String)
  deriving DecidableEq

/-- The JSON key a payload entry is stored under (`Object.entries` key). -/
def keyOf : UpdateField → String
  | UpdateField.status _ => "status"
  | UpdateField.agentNotes _ => "agentNotes"
  | UpdateField.filesModified _ => "filesModified"
  | UpdateField.afterScreenshot _ => "afterScreenshot"
  | UpdateField.attempts _ => "attempts"
  | UpdateField.note _ => "note"
  | UpdateField.category _ => "category"
  | UpdateField.priority _ => "priority"
  | UpdateField.id _ => "id"
  | UpdateField.createdAt _ => "createdAt"
  | UpdateField.updatedAt _ => "updatedAt"
  | UpdateField.url _ => "url"
  | UpdateField.screenshotPath _ => "screenshotPath"

/-- Assign one payload entry onto a task record, as `Object.assign` does for
that key. -/
def applyField (t : Task) : UpdateField → Task
  | UpdateField.status v => { t with status := v }
  | UpdateField.agentNotes v => { t with agentNotes := v }
  | UpdateField.filesModified v => { t with filesModified := v }
  | UpdateField.afterScreenshot v => { t with afterScreenshot := v }
  | UpdateField.attempts v => { t with attempts := v }
  | UpdateField.note v => { t with note := v }
  | UpdateField.category v => { t with category := v }
  | UpdateField.priority v => { t with priority := v }
  | UpdateField.id v => { t with id := v }
  | UpdateField.createdAt v => { t with createdAt := v }
  | UpdateField.updatedAt v => { t with updatedAt := v }
  | UpdateField.url v => { t with url := v }
  | UpdateField.screenshotPath v => { t with screenshotPath := v }

/-- The `status` property of the object a payload builds up (`filtered.status`
in `updateTask`, `updates.status` in the PUT route): the value of the last
`status` entry, or `none` when no `status` key is supplied. -/
def lastStatusValue : List UpdateField → Option String
  | [] => none
  | f :: rest =>
    match lastStatusValue rest with
    | some s => some s
    | none =>
      match f with
      | UpdateField.status s => some s
      | _ => none

/-- Replace the first list element whose `id` matches (the element
`findIndex` locates and `Object.assign` then mutates in place). -/
def replaceFirstById (items : List Task) (id : String) (f : Task → Task) :
    List Task :=
  match items with
  | [] => []
  | t :: rest =>
    if t.id == id then f t :: rest else t :: replaceFirstById rest id f

/-- Outcome of `QueueManager.updateTask`: `null` for an unknown id, a thrown
`Invalid status` error, or the updated document together with the updated
record it returns. -/
inductive UpdateResult
  | notFound
  | invalidStatus
  | ok (q : Queue) (t : Task)
  deriving DecidableEq

/-- `QueueManager.updateTask(id, updates)` from `queue.ts`, up to the
`write` call: find the record, keep only allow-listed payload entries,
reject an invalid supplied status, merge, stamp `updatedAt`. The `ok` queue
is the document `write` then persists (which stamps `lastUpdated := now`). -/
def updateTask (q : Queue) (id : String) (updates : List UpdateField)
    (now : Nat) : UpdateResult :=
  match q.items.find? (fun t => t.id == id) with
  | none => UpdateResult.notFound
  | some task =>
    let filtered := updates.filter fun f => VALID_UPDATE_FIELDS.contains (keyOf f)
    match lastStatusValue filtered with
    | some s =>
      if VALID_STATUSES.contains s then
        let task' := { filtered.foldl applyField task with updatedAt := now }
        UpdateResult.ok
          { q with items := replaceFirstById q.items id (fun _ => task'),
                   lastUpdated := now }
          task'
      else UpdateResult.invalidStatus
    | none =>
      let task' := { filtered.foldl applyField task with updatedAt := now }
      UpdateResult.ok
        { q with items := replaceFirstById q.items id (fun _ => task'),
                 lastUpdated := now }
        task'

/-- `updateTask` composed with the surrounding file I/O: the internal
`this.read()` (which may self-heal the primary), then — only on success —
the internal `this.write(queue)`. -/
def updateTaskFS (fs : FSState) (id : String) (updates : List UpdateField)
    (now : Nat) : UpdateResult × FSState :=
  let rd := readQueue fs now
  match updateTask rd.1 id updates now with
  | UpdateResult.ok q' t' => (UpdateResult.ok q' t', writeQueue rd.2 q' now)
  | r => (r, rd.2)

/-- Decoded value of one base64 alphabet character; `none` for characters
outside the alphabet (which `Buffer.from(..., "base64")` skips). -/
def base64CharVal (c : Char) : Option Nat :=
  if 'A' ≤ c ∧ c ≤ 'Z' then some (c.toNat - 65)
  else if 'a' ≤ c ∧ c ≤ 'z' then some (c.toNat - 97 + 26)
  else if '0' ≤ c ∧ c ≤ '9' then some (c.toNat - 48 + 52)
  else if c = '+' then some 62
  else if c = '/' then some 63
  else none

/-- Reassemble bytes from 6-bit base64 digit values, four digits to three
bytes, with the usual truncation for a trailing partial group. -/
def base64DecodeGroups : List Nat → List Nat
  | a :: b :: c :: d :: rest =>
    (a * 4 + b / 16) :: ((b % 16) * 16 + c / 4) :: ((c % 4) * 64 + d) ::
      base64DecodeGroups rest
  | [a, b] => [a * 4 + b / 16]
  | [a, b, c] => [a * 4 + b / 16, (b % 16) * 16 + c / 4]
  | _ => []

/-- `Buffer.from(s, "base64")`: decode up to the padding marker, skipping
characters outside the base64 alphabet. -/
def base64Decode (s : String) : List Nat :=
  base64DecodeGroups ((s.data.takeWhile (· ≠ '=')).filterMap base64CharVal)

/-- `isValidPngBase64(data)` from `queue.ts`: require at least 16 characters
and the PNG magic `89 50 4E 47` in the first bytes decoded from
`data.slice(0, 16)`. -/
def isValidPngBase64 (data : String) : Bool :=
  if data.length < 16 then false
  else (base64Decode (data.take 16)).take 4 == [0x89, 0x50, 0x4e, 0x47]

/-- Outcome of `QueueManager.saveAfterScreenshot`. -/
inductive SaveResult
  | invalidArtifact
  | notFound
  | ok (t : Task)
  deriving DecidableEq

/-- `QueueManager.saveAfterScreenshot(id, screenshotBase64)` from `queue.ts`:
validate the PNG signature (throwing otherwise), read the document, return
`null` for an unknown id, otherwise persist the artifact, set the task's
`afterScreenshot` path and `updatedAt`, and write the document back. -/
def saveAfterScreenshot (fs : FSState) (id : String) (shot : String)
    (now : Nat) : SaveResult × FSState :=
  if ¬ isValidPngBase64 shot then (SaveResult.invalidArtifact, fs)
  else
    let rd := readQueue fs now
    match rd.1.items.find? (fun t => t.id == id) with
    | none => (SaveResult.notFound, rd.2)
    | some task =>
      let path := ".review/screenshots/" ++ id ++ "-after.png"
      let task' := { task with afterScreenshot := some path, updatedAt := now }
      let q' := { rd.1 with
                  items := replaceFirstById rd.1.items id (fun _ => task') }
      (SaveResult.ok task', writeQueue rd.2 q' now)

/-- `ActivityEntry` from `types.ts`: one ephemeral progress-log line. -/
structure ActivityEntry where
  timestamp : Nat
  type : String
  summary : String
  deriving DecidableEq

/-- The `taskActivity : Map<string, ActivityEntry[]>` held by the server,
as an association list keyed by task id. -/
def ActivityMap : Type := List (String × List ActivityEntry)

instance : DecidableEq ActivityMap := by
  unfold ActivityMap
  infer_instance

/-- `taskActivity.get(id) ?? []`. -/
def actGet (m : ActivityMap) (id : String) : List ActivityEntry :=
  match m.find? (fun p => p.1 == id) with
  | some p => p.2
  | none => []

/-- `taskActivity.delete(id)`. -/
def actDelete (m : ActivityMap) (id : String) : ActivityMap :=
  m.filter fun p => p.1 != id

/-- The server state the activity-related routes touch: the queue files and
the ephemeral activity map. -/
structure ServerState where
  fs : FSState
  activity : ActivityMap
  deriving DecidableEq

/-- HTTP outcome of the task routes, as seen by the caller. -/
inductive ServerResp
  | ok (t : Task)
  | badRequest
  | notFound
  | serverError
  deriving DecidableEq

/-- `PUT /api/tasks/:id` from `server/index.ts`: reject an invalid supplied
status with 400, run `queue.updateTask`, 404 on an unknown id, and on success
drop the task's activity list whenever the resulting status is not
`"in_progress"`. (A thrown `updateTask` error would surface as 500 via the
global error handler; it is unreachable after the route's own status check.) -/
def putTaskCore (s : ServerState) (id : String) (updates : List UpdateField)
    (now : Nat) : ServerResp × ServerState :=
  match updateTaskFS s.fs id updates now with
  | (UpdateResult.notFound, fs') => (ServerResp.notFound, { s with fs := fs' })
  | (UpdateResult.invalidStatus, fs') =>
    (ServerResp.serverError, { s with fs := fs' })
  | (UpdateResult.ok _ t', fs') =>
    let act' := if t'.status != "in_progress" then actDelete s.activity id
                else s.activity
    (ServerResp.ok t', { fs := fs', activity := act' })

/-- `PUT /api/tasks/:id` continued: the route first rejects an invalid
supplied status with 400, then runs `putTaskCore`. -/
def putTaskServer (s : ServerState) (id : String) (updates : List UpdateField)
    (now : Nat) : ServerResp × ServerState :=
  match lastStatusValue updates with
  | some st =>
    if ¬ VALID_STATUSES.contains st then (ServerResp.badRequest, s)
    else putTaskCore s id updates now
  | none => putTaskCore s id updates now

/-- `POST /api/tasks/:id/cancel` from `server/index.ts`: update the task to
`"done"`, 404 on an unknown id, and on success drop its activity list. -/
def cancelServer (s : ServerState) (id : String) (now : Nat) :
    ServerResp × ServerState :=
  match updateTaskFS s.fs id [UpdateField.status "done"] now with
  | (UpdateResult.notFound, fs') => (ServerResp.notFound, { s with fs := fs' })
  | (UpdateResult.invalidStatus, fs') =>
    (ServerResp.serverError, { s with fs := fs' })
  | (UpdateResult.ok _ t', fs') =>
    (ServerResp.ok t', { fs := fs', activity := actDelete s.activity id })

/-- `POST /api/tasks/:id/after-screenshot` from `server/index.ts`: 400 on a
missing body field, then `queue.saveAfterScreenshot`; a thrown
`InvalidArtifact` surfaces as 500. The activity map is not touched. -/
def afterScreenshotServer (s : ServerState) (id : String) (shot : String)
    (now : Nat) : ServerResp × ServerState :=
  if shot = "" then (ServerResp.badRequest, s)
  else
    match saveAfterScreenshot s.fs id shot now with
    | (SaveResult.invalidArtifact, fs') =>
      (ServerResp.serverError, { s with fs := fs' })
    | (SaveResult.notFound, fs') => (ServerResp.notFound, { s with fs := fs' })
    | (SaveResult.ok t', fs') => (ServerResp.ok t', { s with fs := fs' })

/-- `GET /api/tasks/:id/activity` from `server/index.ts`: 404 (`none`) for an
unknown id, otherwise the stored entries (defaulting to `[]`). -/
def getActivityServer (s : ServerState) (id : String) (now : Nat) :
    Option (List ActivityEntry) :=
  let rd := readQueue s.fs now
  if (rd.1.items.find? (fun t => t.id == id)).isSome then
    some (actGet s.activity id)
  else none

/-!
The dispatch loop of `watcher.ts`. A `kickProcessing` run is modelled as an
atomic cycle: the single-threaded event loop only interleaves other handlers
at `await` points, and every such handler that re-enters `kickProcessing`
is stopped by the `processing` guard, which is exactly claim C6. The
environment (the server's answers to `GET /api/tasks/next`, the claim PUT,
and the agent subprocess outcome) is supplied as explicit oracle data, and
the externally visible actions are collected in a trace.
-/

/-- Observable actions of one watcher run. `putStatusEv id st ok` is a
`PUT /api/tasks/:id {status: st}` request and whether it succeeded; `spawnEv`
and `exitEv` delimit the life of the agent subprocess; `skipEv` is the
max-retries skip; `idleEv` is the "Watching for tasks... (0 pending)" idle
transition; `fetchErrEv` is a failed `GET /api/tasks/next`. -/
inductive WEvent
  | fetchErrEv
  | idleEv
  | skipEv (id : String)
  | putStatusEv (id : String) (status : String) (ok : Bool)
  | spawnEv (id : String)
  | exitEv (id : String)
  deriving DecidableEq

/-- Oracle data for one `processTask` run: whether the claim PUT succeeds,
and the task's status as re-read after the agent exits (`none` when that
re-read itself fails). -/
structure ProcEnv where
  claimOk : Bool
  postStatus : Option String
  deriving DecidableEq

/-- Oracle data for one iteration of `kickProcessing`: the response to
`GET /api/tasks/next` — an error, `null`, or a task (with the `processTask`
oracle for the dispatch that would follow). -/
inductive CycleEnv
  | fetchErr
  | fetchOk (t : Option Task) (penv : ProcEnv)
  deriving DecidableEq

/-- The mutable watcher-loop variables of `startWatcher` that the claims
concern: the local pending-id hint list, the single-flight `processing` flag,
the `stopped` flag, and `currentTaskId`. -/
structure WState where
  pendingQueue : List String
  processing : Bool
  stopped : Bool
  currentTaskId : Option String
  deriving DecidableEq

/-- `processTask(task)` from `watcher.ts`, as its event trace: claim the task
with a `PUT {status: "in_progress"}`; when the claim fails, return without
spawning; otherwise spawn the agent, wait for it to exit, re-read the task,
and when the status is still `"in_progress"` reset it to `"pending"`. -/
def processTaskM (t : Task) (env : ProcEnv) : List WEvent :=
  if env.claimOk then
    [WEvent.putStatusEv t.id "in_progress" true, WEvent.spawnEv t.id,
     WEvent.exitEv t.id] ++
      (match env.postStatus with
       | some st =>
         if st == "in_progress" then [WEvent.putStatusEv t.id "pending" true]
         else []
       | none => [])
  else [WEvent.putStatusEv t.id "in_progress" false]

/-- `kickProcessing()` from `watcher.ts`. Guard: a no-op while `processing`,
`stopped`, or with an empty hint list. Otherwise set `processing`, fetch the
globally next pending task; on fetch error just log (the 5s retry timer is a
future trigger); on `null` clear the hint list and idle; skip an
at-retry-limit task (removing it from the hint list); otherwise remove the
task's id from the hint list, run `processTask`, clear `processing`, and
re-check the hint list before idling — recursing when it is non-empty. The
oracle list bounds how many iterations the environment answers. -/
def kickM (maxRetries : Nat) : List CycleEnv → WState → WState × List WEvent
  | [], s => (s, [])
  | e :: rest, s =>
    if s.processing || s.stopped || s.pendingQueue.isEmpty then (s, [])
    else
      match e with
      | CycleEnv.fetchErr => ({ s with processing := false }, [WEvent.fetchErrEv])
      | CycleEnv.fetchOk none _ =>
        ({ s with pendingQueue := [], processing := false }, [WEvent.idleEv])
      | CycleEnv.fetchOk (some t) penv =>
        if 0 < maxRetries ∧ maxRetries ≤ t.attempts.length then
          ({ s with pendingQueue := s.pendingQueue.filter (· != t.id),
                    processing := false },
           [WEvent.skipEv t.id])
        else
          let s2 : WState :=
            { s with pendingQueue := s.pendingQueue.filter (· != t.id),
                     processing := false, currentTaskId := none }
          let tr := processTaskM t penv
          if !s2.stopped && !s2.pendingQueue.isEmpty then
            let k := kickM maxRetries rest s2
            (k.1, tr ++ k.2)
          else (s2, tr ++ [WEvent.idleEv])

/-- `enqueue(taskId)` from `watcher.ts`: push the id unless it is already
hinted or currently being processed (the caller then kicks the loop). -/
def enqueueM (s : WState) (taskId : String) : WState :=
  if !s.pendingQueue.contains taskId && s.currentTaskId != some taskId then
    { s with pendingQueue := s.pendingQueue ++ [taskId] }
  else s

/-- A sequence of loop triggers: each round is an optional `enqueue` (an SSE
`task_created`/returned-to-pending notification) followed by the
`kickProcessing` it causes, with that round's oracle answers. -/
def runRounds (maxRetries : Nat) :
    List (Option String × List CycleEnv) → WState → WState × List WEvent
  | [], s => (s, [])
  | (trig, env) :: more, s =>
    let s0 := match trig with
      | some taskId => enqueueM s taskId
      | none => s
    let k := kickM maxRetries env s0
    let r := runRounds maxRetries more k.1
    (r.1, k.2 ++ r.2)

/-- Subprocess accounting for a trace: scan the events with an "agent
currently active" flag, failing (`none`) if a spawn happens while one is
active; returns the flag's final value otherwise. -/
def flightState : Bool → List WEvent → Option Bool
  | b, [] => some b
  | b, WEvent.spawnEv _ :: rest =>
    if b then none else flightState true rest
  | _, WEvent.exitEv _ :: rest => flightState false rest
  | b, _ :: rest => flightState b rest

/-! ### Theorems -/

/-- C1: after at least two writes (the last two landing documents `d1` then
`d2` on an arbitrary prior file state), corrupting the primary and reading
returns exactly the document persisted by the immediately preceding write —
the backup generation `d1` stamped at its write time — and afterwards the
primary file holds that same backup content (the primary is repaired to
match). -/
theorem read_after_corruption_restores_backup_generation
    (fs : FSState) (d1 d2 : Queue) (t1 t2 tr : Nat) :
    readQueue (corruptPrimary (writeQueue (writeQueue fs d1 t1) d2 t2)) tr =
      ({ d1 with lastUpdated := t1 },
       { primary := some (FileContent.valid { d1 with lastUpdated := t1 }),
         backup := some (FileContent.valid { d1 with lastUpdated := t1 }) }) :=
  rfl

/-- C3: whenever both the primary and the backup queue file are unreadable or
absent, `read()` returns the empty freshly-initialized document and leaves the
files as they are; the embedding of `read()` is a total function, so no error
reaches the caller. -/
theorem read_total_empty_on_double_corruption
    (fs : FSState) (now : Nat)
    (hp : unreadable fs.primary) (hb : unreadable fs.backup) :
    readQueue fs now = (emptyQueue now, fs) := by
  rcases fs with ⟨p, b⟩
  rcases hp with h | h <;> rcases hb with h' | h' <;>
    simp only at h h' <;> subst h <;> subst h' <;> rfl

/-- Witness for C3 at a concrete doubly-corrupted state. -/
theorem read_total_empty_on_double_corruption_witness :
    readQueue ⟨some FileContent.corrupt, some FileContent.corrupt⟩ 5 =
      (emptyQueue 5, ⟨some FileContent.corrupt, some FileContent.corrupt⟩) :=
  read_total_empty_on_double_corruption
    ⟨some FileContent.corrupt, some FileContent.corrupt⟩ 5
    (by decide) (by decide)

theorem taskR_refl (a : Task) : taskR a a := by
  unfold taskR taskCmp
  simp

theorem taskR_total_thm (a b : Task) : taskR a b ∨ taskR b a := by
  simp only [taskR, taskCmp]
  split_ifs <;> omega

instance : IsTotal Task taskR := ⟨taskR_total_thm⟩

theorem taskR_trans_thm (a b c : Task) :
    taskR a b → taskR b c → taskR a c := by
  simp only [taskR, taskCmp]
  split_ifs <;> omega

instance : IsTrans Task taskR := ⟨taskR_trans_thm⟩

/-- `taskR`, spelled out: strictly better priority tier, or the same tier and
no later creation time. -/
theorem taskR_iff (a b : Task) :
    taskR a b ↔
      (PRIORITY_ORDER a.priority < PRIORITY_ORDER b.priority ∨
       (PRIORITY_ORDER a.priority = PRIORITY_ORDER b.priority ∧
        a.createdAt ≤ b.createdAt)) := by
  simp only [taskR, taskCmp]
  split_ifs <;> omega

/-- C2: `getNextPending` returns a pending task of the document that has the
numerically lowest priority tier among pending tasks, and among those the
earliest creation time; it returns `none` exactly when no pending task
exists. -/
theorem getNextPending_spec (q : Queue) :
    (∀ t, getNextPending q = some t →
      t ∈ q.items ∧ t.status = "pending" ∧
      ∀ u ∈ q.items, u.status = "pending" →
        PRIORITY_ORDER t.priority < PRIORITY_ORDER u.priority ∨
        (PRIORITY_ORDER t.priority = PRIORITY_ORDER u.priority ∧
         t.createdAt ≤ u.createdAt)) ∧
    (getNextPending q = none ↔ ∀ t ∈ q.items, t.status ≠ "pending") := by
  have hsort : (List.insertionSort taskR
      (q.items.filter fun t => t.status == "pending")).Sorted taskR :=
    List.sorted_insertionSort taskR _
  constructor
  · intro t ht
    unfold getNextPending at ht
    rcases hhead : List.insertionSort taskR
        (q.items.filter fun t => t.status == "pending") with _ | ⟨a, rest⟩
    · rw [hhead] at ht
      simp at ht
    · rw [hhead] at ht
      simp only [List.head?_cons, Option.some.injEq] at ht
      rw [ht] at hhead
      have hmem : t ∈ q.items.filter fun t => t.status == "pending" := by
        rw [← List.mem_insertionSort (r := taskR), hhead]
        exact List.mem_cons_self _ _
      have hmem' := List.mem_filter.mp hmem
      refine ⟨hmem'.1, by simpa using hmem'.2, ?_⟩
      intro u hu hustat
      have humem : u ∈ q.items.filter fun t => t.status == "pending" :=
        List.mem_filter.mpr ⟨hu, by simpa using hustat⟩
      have hR : taskR t u := by
        rw [← List.mem_insertionSort (r := taskR), hhead] at humem
        rcases List.mem_cons.mp humem with h | h
        · rw [h]
          exact taskR_refl t
        · rw [hhead] at hsort
          exact List.rel_of_sorted_cons hsort u h
      exact (taskR_iff t u).mp hR
  · unfold getNextPending
    rw [List.head?_eq_none_iff]
    constructor
    · intro h t hmem hstat
      have : t ∈ q.items.filter fun t => t.status == "pending" :=
        List.mem_filter.mpr ⟨hmem, by simpa using hstat⟩
      rw [← List.mem_insertionSort (r := taskR), h] at this
      simp at this
    · intro h
      have : q.items.filter (fun t => t.status == "pending") = [] := by
        rw [List.filter_eq_nil_iff]
        intro a ha
        simpa using h a ha
      rw [this]
      rfl

/-- A pending task record with the fields the selection claims read; the
remaining fields are fixed innocuous values. -/
def mkTask (idv : String) (p : TaskPriority) (created : Nat) : Task :=
  { id := idv, createdAt := created, updatedAt := created, url := "/",
    note := "n", category := "tweak", priority := p, status := "pending",
    screenshotPath := ".review/screenshots/x.png", agentNotes := "",
    filesModified := [], afterScreenshot := none, attempts := [] }

/-- Three pending tasks created in the order low, high, medium. -/
def demoQueue : Queue :=
  { version := 1, lastUpdated := 0,
    items := [mkTask "a" TaskPriority.low 10, mkTask "b" TaskPriority.high 20,
              mkTask "c" TaskPriority.medium 30] }

/-- Witness for C2: on `demoQueue`, the returned task is the high-priority
one, and it satisfies the minimality property. -/
theorem getNextPending_spec_witness :
    mkTask "b" TaskPriority.high 20 ∈ demoQueue.items ∧
    (mkTask "b" TaskPriority.high 20).status = "pending" ∧
    ∀ u ∈ demoQueue.items, u.status = "pending" →
      PRIORITY_ORDER (mkTask "b" TaskPriority.high 20).priority <
        PRIORITY_ORDER u.priority ∨
      (PRIORITY_ORDER (mkTask "b" TaskPriority.high 20).priority =
        PRIORITY_ORDER u.priority ∧
       (mkTask "b" TaskPriority.high 20).createdAt ≤ u.createdAt) :=
  (getNextPending_spec demoQueue).1 (mkTask "b" TaskPriority.high 20) (by decide)

theorem contains_keyOf_status (v : String) :
    VALID_UPDATE_FIELDS.contains (keyOf (UpdateField.status v)) = true := rfl

theorem contains_keyOf_agentNotes (v : String) :
    VALID_UPDATE_FIELDS.contains (keyOf (UpdateField.agentNotes v)) = true := rfl

theorem contains_keyOf_filesModified (v : List String) :
    VALID_UPDATE_FIELDS.contains (keyOf (UpdateField.filesModified v)) = true :=
  rfl

theorem contains_keyOf_afterScreenshot (v : Option String) :
    VALID_UPDATE_FIELDS.contains (keyOf (UpdateField.afterScreenshot v)) =
      true := rfl

theorem contains_keyOf_attempts (v : List TaskAttempt) :
    VALID_UPDATE_FIELDS.contains (keyOf (UpdateField.attempts v)) = true := rfl

theorem contains_keyOf_note (v : String) :
    VALID_UPDATE_FIELDS.contains (keyOf (UpdateField.note v)) = true := rfl

theorem contains_keyOf_category (v : String) :
    VALID_UPDATE_FIELDS.contains (keyOf (UpdateField.category v)) = true := rfl

theorem contains_keyOf_priority (v : TaskPriority) :
    VALID_UPDATE_FIELDS.contains (keyOf (UpdateField.priority v)) = true := rfl

theorem contains_keyOf_id (v : String) :
    VALID_UPDATE_FIELDS.contains (keyOf (UpdateField.id v)) = false := rfl

theorem contains_keyOf_createdAt (v : Nat) :
    VALID_UPDATE_FIELDS.contains (keyOf (UpdateField.createdAt v)) = false :=
  rfl

theorem contains_keyOf_updatedAt (v : Nat) :
    VALID_UPDATE_FIELDS.contains (keyOf (UpdateField.updatedAt v)) = false :=
  rfl

theorem contains_keyOf_url (v : String) :
    VALID_UPDATE_FIELDS.contains (keyOf (UpdateField.url v)) = false := rfl

theorem contains_keyOf_screenshotPath (v : String) :
    VALID_UPDATE_FIELDS.contains (keyOf (UpdateField.screenshotPath v)) =
      false := rfl

/-- An allow-listed payload entry never assigns `id` or `createdAt`. -/
theorem applyField_allowed_preserves (t : Task) (f : UpdateField)
    (h : VALID_UPDATE_FIELDS.contains (keyOf f) = true) :
    (applyField t f).id = t.id ∧ (applyField t f).createdAt = t.createdAt := by
  cases f <;> first
    | exact ⟨rfl, rfl⟩
    | (rw [contains_keyOf_id] at h; exact Bool.noConfusion h)
    | (rw [contains_keyOf_createdAt] at h; exact Bool.noConfusion h)

/-- Folding allow-listed payload entries never changes `id` or `createdAt`. -/
theorem foldl_applyField_allowed (fs : List UpdateField) (t : Task)
    (h : ∀ f ∈ fs, VALID_UPDATE_FIELDS.contains (keyOf f) = true) :
    (fs.foldl applyField t).id = t.id ∧
    (fs.foldl applyField t).createdAt = t.createdAt := by
  induction fs generalizing t with
  | nil => exact ⟨rfl, rfl⟩
  | cons f rest ih =>
    simp only [List.foldl_cons]
    have h1 := applyField_allowed_preserves t f (h f (List.mem_cons_self _ _))
    have h2 := ih (applyField t f) fun g hg => h g (List.mem_cons_of_mem _ hg)
    exact ⟨h2.1.trans h1.1, h2.2.trans h1.2⟩

/-- The allow-list filter never removes a `status` entry, so the status value
checked after filtering is the one supplied in the raw payload. -/
theorem lastStatusValue_filter (u : List UpdateField) :
    lastStatusValue
        (u.filter fun f => VALID_UPDATE_FIELDS.contains (keyOf f)) =
      lastStatusValue u := by
  induction u with
  | nil => rfl
  | cons f rest ih =>
    rw [List.filter_cons]
    by_cases hpf : VALID_UPDATE_FIELDS.contains (keyOf f) = true
    · rw [if_pos hpf]
      simp only [lastStatusValue]
      rw [ih]
    · rw [if_neg hpf, ih]
      cases f <;>
        first
          | exact absurd (contains_keyOf_status _) hpf
          | (rcases h2 : lastStatusValue rest with _ | s <;>
              simp [lastStatusValue, h2])

/-- Filtering an already-filtered payload is a no-op, so `updateTask` treats a
payload and its allow-listed restriction identically. -/
theorem updateTask_filter_invariant (q : Queue) (id : String)
    (u : List UpdateField) (now : Nat) :
    updateTask q id u now =
      updateTask q id
        (u.filter fun f => VALID_UPDATE_FIELDS.contains (keyOf f)) now := by
  have hff :
      (u.filter fun f => VALID_UPDATE_FIELDS.contains (keyOf f)).filter
          (fun f => VALID_UPDATE_FIELDS.contains (keyOf f)) =
        u.filter fun f => VALID_UPDATE_FIELDS.contains (keyOf f) := by
    rw [List.filter_filter]
    simp
  unfold updateTask
  rw [hff]

/-- C5: a successful `updateTask` keeps the task's identity and creation
time unchanged — even when the payload supplies `id`, `createdAt` or other
non-allow-listed fields — refreshes `updatedAt`, and behaves exactly as if
every non-allow-listed payload field had been dropped. -/
theorem updateTask_identity_frame
    (q : Queue) (id : String) (u : List UpdateField) (now : Nat)
    (t0 : Task) (q' : Queue) (t' : Task)
    (h0 : q.items.find? (fun t => t.id == id) = some t0)
    (hok : updateTask q id u now = UpdateResult.ok q' t') :
    t'.id = t0.id ∧ t'.createdAt = t0.createdAt ∧ t'.updatedAt = now ∧
    updateTask q id u now =
      updateTask q id
        (u.filter fun f => VALID_UPDATE_FIELDS.contains (keyOf f)) now := by
  have hpres := foldl_applyField_allowed
    (u.filter fun f => VALID_UPDATE_FIELDS.contains (keyOf f)) t0
    (fun f hf => (List.mem_filter.mp hf).2)
  refine ⟨?_, ?_, ?_, updateTask_filter_invariant q id u now⟩ <;>
  · simp only [updateTask, h0] at hok
    rcases hls : lastStatusValue
        (u.filter fun f => VALID_UPDATE_FIELDS.contains (keyOf f)) with _ | s
    · rw [hls] at hok
      simp only [UpdateResult.ok.injEq] at hok
      rw [← hok.2]
      all_goals first
        | exact hpres.1
        | exact hpres.2
    · rw [hls] at hok
      dsimp only at hok
      by_cases hv : VALID_STATUSES.contains s = true
      · rw [if_pos hv] at hok
        simp only [UpdateResult.ok.injEq] at hok
        rw [← hok.2]
        all_goals first
          | exact hpres.1
          | exact hpres.2
      · rw [if_neg hv] at hok
        exact absurd hok (by simp)

/-- Witness for C5: a payload supplying `id`, `createdAt`, a new note and a
valid status leaves identity and creation time untouched. -/
theorem updateTask_identity_frame_witness :
    ({ mkTask "a" TaskPriority.medium 10 with
        status := "done", note := "new", updatedAt := 50 } : Task).id =
      (mkTask "a" TaskPriority.medium 10).id ∧
    ({ mkTask "a" TaskPriority.medium 10 with
        status := "done", note := "new", updatedAt := 50 } : Task).createdAt =
      (mkTask "a" TaskPriority.medium 10).createdAt ∧
    ({ mkTask "a" TaskPriority.medium 10 with
        status := "done", note := "new", updatedAt := 50 } : Task).updatedAt =
      50 ∧
    updateTask ⟨1, 0, [mkTask "a" TaskPriority.medium 10]⟩ "a"
        [UpdateField.id "zzz", UpdateField.createdAt 999,
         UpdateField.status "done", UpdateField.note "new"] 50 =
      updateTask ⟨1, 0, [mkTask "a" TaskPriority.medium 10]⟩ "a"
        ([UpdateField.id "zzz", UpdateField.createdAt 999,
          UpdateField.status "done", UpdateField.note "new"].filter
          fun f => VALID_UPDATE_FIELDS.contains (keyOf f)) 50 :=
  updateTask_identity_frame ⟨1, 0, [mkTask "a" TaskPriority.medium 10]⟩ "a"
    [UpdateField.id "zzz", UpdateField.createdAt 999,
     UpdateField.status "done", UpdateField.note "new"] 50
    (mkTask "a" TaskPriority.medium 10)
    ⟨1, 50, [{ mkTask "a" TaskPriority.medium 10 with
               status := "done", note := "new", updatedAt := 50 }]⟩
    { mkTask "a" TaskPriority.medium 10 with
      status := "done", note := "new", updatedAt := 50 }
    (by decide) (by decide)

/-- C4: when the payload addresses an existing task and supplies a status
outside the four defined states, `updateTask` throws `Invalid status` and no
write is issued: the file state is exactly what the internal `read()` left. -/
theorem updateTask_invalid_status_rejected
    (fs : FSState) (id : String) (u : List UpdateField) (now : Nat)
    (t0 : Task) (s : String)
    (h0 : (readQueue fs now).1.items.find? (fun t => t.id == id) = some t0)
    (hs : lastStatusValue u = some s)
    (hbad : VALID_STATUSES.contains s = false) :
    updateTask (readQueue fs now).1 id u now = UpdateResult.invalidStatus ∧
    updateTaskFS fs id u now =
      (UpdateResult.invalidStatus, (readQueue fs now).2) := by
  have hls : lastStatusValue
      (u.filter fun f => VALID_UPDATE_FIELDS.contains (keyOf f)) = some s :=
    (lastStatusValue_filter u).trans hs
  have h1 : updateTask (readQueue fs now).1 id u now =
      UpdateResult.invalidStatus := by
    simp only [updateTask, h0, hls]
    rw [if_neg (fun hc => Bool.noConfusion (hbad.symm.trans hc))]
  refine ⟨h1, ?_⟩
  simp only [updateTaskFS]
  rw [h1]

/-- Witness for C4 at a concrete store and the status value `"bogus"`. -/
theorem updateTask_invalid_status_rejected_witness :
    updateTask
        (readQueue ⟨some (FileContent.valid
          ⟨1, 0, [mkTask "a" TaskPriority.medium 10]⟩), none⟩ 50).1
        "a" [UpdateField.status "bogus"] 50 = UpdateResult.invalidStatus ∧
    updateTaskFS
        ⟨some (FileContent.valid
          ⟨1, 0, [mkTask "a" TaskPriority.medium 10]⟩), none⟩
        "a" [UpdateField.status "bogus"] 50 =
      (UpdateResult.invalidStatus,
       (readQueue ⟨some (FileContent.valid
         ⟨1, 0, [mkTask "a" TaskPriority.medium 10]⟩), none⟩ 50).2) :=
  updateTask_invalid_status_rejected
    ⟨some (FileContent.valid ⟨1, 0, [mkTask "a" TaskPriority.medium 10]⟩),
     none⟩
    "a" [UpdateField.status "bogus"] 50 (mkTask "a" TaskPriority.medium 10)
    "bogus" (by decide) (by decide) (by decide)

/-- Deleting a key from the activity map makes a lookup of that key come back
empty. -/
theorem actGet_actDelete (m : ActivityMap) (id : String) :
    actGet (actDelete m id) id = [] := by
  unfold actGet actDelete
  induction m with
  | nil => rfl
  | cons p rest ih =>
    rw [List.filter_cons]
    by_cases hp : (p.1 == id) = true
    · rw [if_neg (by simp [bne, hp])]
      exact ih
    · rw [if_pos (by simp [bne, hp])]
      rw [List.find?_cons_of_neg _ (by simpa using hp)]
      exact ih

/-- Replacing the first record found by id leaves the replacement where
`find?` by the same id will return it (provided the replacement keeps a
matching id). -/
theorem find?_replaceFirstById (items : List Task) (id : String)
    (f : Task → Task) (t0 : Task)
    (h0 : items.find? (fun t => t.id == id) = some t0)
    (hid : ((f t0).id == id) = true) :
    (replaceFirstById items id f).find? (fun t => t.id == id) =
      some (f t0) := by
  induction items with
  | nil => simp at h0
  | cons a rest ih =>
    by_cases ha : (a.id == id) = true
    · rw [List.find?_cons_of_pos (p := fun t : Task => t.id == id) _ ha] at h0
      have ht0 : a = t0 := by simpa using h0
      unfold replaceFirstById
      rw [if_pos ha,
          List.find?_cons_of_pos (p := fun t : Task => t.id == id) _
            (ht0 ▸ hid)]
      rw [ht0]
    · rw [List.find?_cons_of_neg (p := fun t : Task => t.id == id) _ ha] at h0
      unfold replaceFirstById
      rw [if_neg ha,
          List.find?_cons_of_neg (p := fun t : Task => t.id == id) _ ha]
      exact ih h0

/-- Inversion of a successful `updateTask`: the id was found, the new
document replaces that record, and the returned record keeps its id. -/
theorem updateTask_ok_inv (q : Queue) (id : String) (u : List UpdateField)
    (now : Nat) (q' : Queue) (t' : Task)
    (hok : updateTask q id u now = UpdateResult.ok q' t') :
    ∃ t0, q.items.find? (fun t => t.id == id) = some t0 ∧
      q'.items = replaceFirstById q.items id (fun _ => t') ∧
      t'.id = t0.id := by
  rcases hfind : q.items.find? (fun t => t.id == id) with _ | t0
  · rw [updateTask, hfind] at hok
    exact absurd hok (by simp)
  · have hpres := foldl_applyField_allowed
      (u.filter fun f => VALID_UPDATE_FIELDS.contains (keyOf f)) t0
      (fun f hf => (List.mem_filter.mp hf).2)
    simp only [updateTask, hfind] at hok
    rcases hls : lastStatusValue
        (u.filter fun f => VALID_UPDATE_FIELDS.contains (keyOf f)) with _ | s
    · rw [hls] at hok
      simp only [UpdateResult.ok.injEq] at hok
      refine ⟨t0, hfind, ?_, ?_⟩
      · rw [← hok.1, ← hok.2]
      · rw [← hok.2]
        exact hpres.1
    · rw [hls] at hok
      dsimp only at hok
      by_cases hv : VALID_STATUSES.contains s = true
      · rw [if_pos hv] at hok
        simp only [UpdateResult.ok.injEq] at hok
        refine ⟨t0, hfind, ?_, ?_⟩
        · rw [← hok.1, ← hok.2]
        · rw [← hok.2]
          exact hpres.1
      · rw [if_neg hv] at hok
        exact absurd hok (by simp)

/-- Reading right after a write returns the written document (with its write
stamp) and leaves the files as the write left them. -/
theorem readQueue_writeQueue (fs : FSState) (q : Queue) (now now2 : Nat) :
    readQueue (writeQueue fs q now) now2 =
      ({ q with lastUpdated := now }, writeQueue fs q now) :=
  rfl

/-- Inversion of a successful `updateTaskFS`: the pure update succeeded and
the new document was written over the state the read left. -/
theorem updateTaskFS_ok_inv (fs : FSState) (id : String)
    (u : List UpdateField) (now : Nat) (q' : Queue) (t' : Task)
    (fs' : FSState)
    (hu : updateTaskFS fs id u now = (UpdateResult.ok q' t', fs')) :
    fs' = writeQueue (readQueue fs now).2 q' now ∧
    updateTask (readQueue fs now).1 id u now = UpdateResult.ok q' t' := by
  simp only [updateTaskFS] at hu
  cases hupd : updateTask (readQueue fs now).1 id u now with
  | notFound =>
    rw [hupd] at hu
    simp at hu
  | invalidStatus =>
    rw [hupd] at hu
    simp at hu
  | ok q2 t2 =>
    rw [hupd] at hu
    simp only [Prod.mk.injEq, UpdateResult.ok.injEq] at hu
    obtain ⟨⟨h1, h2⟩, h3⟩ := hu
    subst h1
    subst h2
    exact ⟨h3.symm, rfl⟩

/-- After a successful `updateTaskFS`, a fresh read finds the updated record
under its id. -/
theorem readQueue_after_update_finds (fs : FSState) (id : String)
    (u : List UpdateField) (now now2 : Nat) (q' : Queue) (t' : Task)
    (fs' : FSState)
    (hu : updateTaskFS fs id u now = (UpdateResult.ok q' t', fs')) :
    (readQueue fs' now2).1.items.find? (fun t => t.id == id) = some t' := by
  obtain ⟨hfs, hupd⟩ := updateTaskFS_ok_inv fs id u now q' t' fs' hu
  obtain ⟨t0, hfind, hitems, hid'⟩ := updateTask_ok_inv _ _ _ _ _ _ hupd
  have hbeq : (t0.id == id) = true := by simpa using List.find?_some hfind
  subst hfs
  rw [readQueue_writeQueue]
  show q'.items.find? (fun t => t.id == id) = some t'
  rw [hitems]
  exact find?_replaceFirstById _ _ _ _ hfind (by rw [hid']; exact hbeq)

/-- C9 (amended): after every update performed through the `updateTask` PUT
path whose resulting status is not `in_progress`, and after every explicit
cancellation, the task's Activity Entry list is discarded and a subsequent
activity read returns the empty list. (The after-screenshot update path does
not discard the list — see the counterexample.) -/
theorem activity_discarded_on_put_and_cancel :
    (∀ (s : ServerState) (id : String) (u : List UpdateField)
       (now now2 : Nat) (t' : Task) (s2 : ServerState),
       putTaskServer s id u now = (ServerResp.ok t', s2) →
       t'.status ≠ "in_progress" →
       actGet s2.activity id = [] ∧ getActivityServer s2 id now2 = some []) ∧
    (∀ (s : ServerState) (id : String) (now now2 : Nat) (t' : Task)
       (s2 : ServerState),
       cancelServer s id now = (ServerResp.ok t', s2) →
       actGet s2.activity id = [] ∧ getActivityServer s2 id now2 = some []) := by
  constructor
  · intro s id u now now2 t' s2 hput hst
    have hcore : putTaskCore s id u now = (ServerResp.ok t', s2) := by
      unfold putTaskServer at hput
      rcases hlsu : lastStatusValue u with _ | st <;> rw [hlsu] at hput
      · exact hput
      · dsimp only at hput
        by_cases hv : VALID_STATUSES.contains st = true
        · rw [if_neg (fun hc => hc hv)] at hput
          exact hput
        · rw [if_pos hv] at hput
          simp at hput
    unfold putTaskCore at hcore
    rcases hu : updateTaskFS s.fs id u now with ⟨r, fs'⟩
    rw [hu] at hcore
    cases r with
    | notFound => simp at hcore
    | invalidStatus => simp at hcore
    | ok q2 t2 =>
      dsimp only at hcore
      simp only [Prod.mk.injEq, ServerResp.ok.injEq] at hcore
      obtain ⟨hts, hs2⟩ := hcore
      subst hts
      have hbne : (t2.status != "in_progress") = true := bne_iff_ne.mpr hst
      rw [hbne] at hs2
      rw [if_pos rfl] at hs2
      subst hs2
      refine ⟨actGet_actDelete _ _, ?_⟩
      have hfindEq := readQueue_after_update_finds s.fs id u now now2 q2 t2
        fs' hu
      unfold getActivityServer
      dsimp only
      rw [hfindEq]
      simp [actGet_actDelete]
  · intro s id now now2 t' s2 hcanc
    unfold cancelServer at hcanc
    rcases hu : updateTaskFS s.fs id [UpdateField.status "done"] now
      with ⟨r, fs'⟩
    rw [hu] at hcanc
    cases r with
    | notFound => simp at hcanc
    | invalidStatus => simp at hcanc
    | ok q2 t2 =>
      dsimp only at hcanc
      simp only [Prod.mk.injEq, ServerResp.ok.injEq] at hcanc
      obtain ⟨hts, hs2⟩ := hcanc
      subst hts
      subst hs2
      refine ⟨actGet_actDelete _ _, ?_⟩
      have hfindEq := readQueue_after_update_finds s.fs id
        [UpdateField.status "done"] now now2 q2 t2 fs' hu
      unfold getActivityServer
      dsimp only
      rw [hfindEq]
      simp [actGet_actDelete]

/-- The server state before the C9 scenarios: one stored task with id `"a"`
in `review` status, and one buffered activity entry for it. -/
def srvReview : ServerState :=
  ⟨⟨some (FileContent.valid
      ⟨1, 0, [{ mkTask "a" TaskPriority.medium 10 with status := "review" }]⟩),
    none⟩,
   [("a", [⟨1, "text", "working"⟩])]⟩

/-- A server state with one stored pending task with id `"a"` and one
buffered activity entry for it. -/
def srvPending : ServerState :=
  ⟨⟨some (FileContent.valid ⟨1, 0, [mkTask "a" TaskPriority.medium 10]⟩),
    none⟩,
   [("a", [⟨1, "text", "working"⟩])]⟩

/-- The server state `putTaskServer srvPending "a" [status := "review"] 50`
produces. -/
def srvAfterPut : ServerState :=
  ⟨⟨some (FileContent.valid
      ⟨1, 50, [{ mkTask "a" TaskPriority.medium 10 with
                 status := "review", updatedAt := 50 }]⟩),
    some (FileContent.valid ⟨1, 0, [mkTask "a" TaskPriority.medium 10]⟩)⟩,
   []⟩

/-- Witness for the amended C9 at a concrete PUT. -/
theorem activity_discarded_on_put_and_cancel_witness :
    actGet srvAfterPut.activity "a" = [] ∧
    getActivityServer srvAfterPut "a" 60 = some [] :=
  activity_discarded_on_put_and_cancel.1 srvPending "a"
    [UpdateField.status "review"] 50 60
    { mkTask "a" TaskPriority.medium 10 with
      status := "review", updatedAt := 50 }
    srvAfterPut (by decide) (by decide)

/-- Counterexample to C9 as stated: the after-screenshot endpoint is a task
update operation (it changes the stored record and broadcasts
`task_updated`), its resulting status `"review"` is not `"in_progress"`, yet
the task's activity list survives and a subsequent activity read returns it
non-empty. -/
theorem afterScreenshot_keeps_activity_counterexample :
    (afterScreenshotServer srvReview "a" "iVBORw0KGgoAAAAN" 50).1 =
      ServerResp.ok
        { mkTask "a" TaskPriority.medium 10 with
          status := "review",
          afterScreenshot := some ".review/screenshots/a-after.png",
          updatedAt := 50 } ∧
    ({ mkTask "a" TaskPriority.medium 10 with
        status := "review",
        afterScreenshot := some ".review/screenshots/a-after.png",
        updatedAt := 50 } : Task).status ≠ "in_progress" ∧
    getActivityServer
        (afterScreenshotServer srvReview "a" "iVBORw0KGgoAAAAN" 50).2 "a" 60 =
      some [⟨1, "text", "working"⟩] ∧
    ([(⟨1, "text", "working"⟩ : ActivityEntry)] : List ActivityEntry) ≠ [] :=
  by decide

theorem flightState_append (b : Bool) (l1 l2 : List WEvent) :
    flightState b (l1 ++ l2) =
      (flightState b l1).bind fun b2 => flightState b2 l2 := by
  induction l1 generalizing b with
  | nil => rfl
  | cons ev rest ih =>
    cases ev <;> cases b <;> simp [flightState, ih]

/-- A `processTask` run spawns at most once, with the exit recorded before
the run ends. -/
theorem flightState_processTaskM (t : Task) (env : ProcEnv) :
    flightState false (processTaskM t env) = some false := by
  rcases env with ⟨co, post⟩
  cases co <;> rcases post with _ | st <;>
    first
      | rfl
      | (by_cases hst : (st == "in_progress") = true <;>
          simp [processTaskM, hst, flightState])

theorem idle_not_mem_processTaskM (t : Task) (env : ProcEnv) :
    WEvent.idleEv ∉ processTaskM t env := by
  rcases env with ⟨co, post⟩
  cases co <;> rcases post with _ | st <;> simp [processTaskM]

/-- The three guard variables are all false when the `kickProcessing` guard
lets an iteration through. -/
theorem guard_parts (s : WState)
    (hg : (s.processing || s.stopped || s.pendingQueue.isEmpty) ≠ true) :
    s.processing = false ∧ s.stopped = false ∧
    s.pendingQueue.isEmpty = false := by
  simp only [Bool.or_eq_true, not_or, Bool.not_eq_true,
    Bool.or_eq_false_iff] at hg
  exact ⟨hg.1.1, hg.1.2, hg.2⟩

/-- The loop variables after the dispatch branch removes the fetched task's
id from the hint list and `processTask` returns. -/
def afterDispatchState (s : WState) (t : Task) : WState :=
  { s with pendingQueue := s.pendingQueue.filter (· != t.id),
           processing := false, currentTaskId := none }

/-- Unfolding of the dispatch branch of `kickM` (guard open, task fetched,
retry limit not hit). -/
theorem kickM_dispatch_eq (m : Nat) (rest : List CycleEnv) (s : WState)
    (t : Task) (penv : ProcEnv)
    (hp : s.processing = false) (hs : s.stopped = false)
    (hq : s.pendingQueue.isEmpty = false)
    (hr : ¬(0 < m ∧ m ≤ t.attempts.length)) :
    kickM m (CycleEnv.fetchOk (some t) penv :: rest) s =
      if (!(afterDispatchState s t).stopped &&
          !(afterDispatchState s t).pendingQueue.isEmpty) = true then
        ((kickM m rest (afterDispatchState s t)).1,
         processTaskM t penv ++ (kickM m rest (afterDispatchState s t)).2)
      else (afterDispatchState s t,
            processTaskM t penv ++ [WEvent.idleEv]) := by
  have hgneg : ¬((s.processing || s.stopped || s.pendingQueue.isEmpty) = true) :=
    by simp [hp, hs, hq]
  simp only [kickM]
  rw [if_neg hgneg, if_neg hr]
  rfl

/-- Unfolding of the max-retries skip branch of `kickM`. -/
theorem kickM_skip_eq (m : Nat) (rest : List CycleEnv) (s : WState)
    (t : Task) (penv : ProcEnv)
    (hp : s.processing = false) (hs : s.stopped = false)
    (hq : s.pendingQueue.isEmpty = false)
    (hr : 0 < m ∧ m ≤ t.attempts.length) :
    kickM m (CycleEnv.fetchOk (some t) penv :: rest) s =
      ({ s with pendingQueue := s.pendingQueue.filter (· != t.id),
                processing := false },
       [WEvent.skipEv t.id]) := by
  have hgneg : ¬((s.processing || s.stopped || s.pendingQueue.isEmpty) = true) :=
    by simp [hp, hs, hq]
  simp only [kickM]
  rw [if_neg hgneg, if_pos hr]

/-- Every `kickProcessing` trace keeps at most one agent active, ending with
none active. -/
theorem flightState_kickM (m : Nat) (envs : List CycleEnv) (s : WState) :
    flightState false (kickM m envs s).2 = some false := by
  induction envs generalizing s with
  | nil => rfl
  | cons e rest ih =>
    by_cases hg : (s.processing || s.stopped || s.pendingQueue.isEmpty) = true
    · simp [kickM, hg, flightState]
    · obtain ⟨hp, hs2, hq⟩ := guard_parts s hg
      rcases e with _ | ⟨r, penv⟩
      · simp [kickM, hg, flightState]
      · rcases r with _ | t
        · simp [kickM, hg, flightState]
        · by_cases hr : 0 < m ∧ m ≤ t.attempts.length
          · rw [kickM_skip_eq m rest s t penv hp hs2 hq hr]
            rfl
          · rw [kickM_dispatch_eq m rest s t penv hp hs2 hq hr]
            split
            · dsimp only
              rw [flightState_append, flightState_processTaskM]
              simpa using ih _
            · dsimp only
              rw [flightState_append, flightState_processTaskM]
              rfl

/-- Every multi-trigger run keeps at most one agent active. -/
theorem flightState_runRounds (m : Nat)
    (rounds : List (Option String × List CycleEnv)) (s : WState) :
    flightState false (runRounds m rounds s).2 = some false := by
  induction rounds generalizing s with
  | nil => rfl
  | cons r more ih =>
    rcases r with ⟨trig, env⟩
    simp only [runRounds]
    rw [flightState_append, flightState_kickM]
    simpa using ih _

/-- C6: single-flight execution. (a) a `kickProcessing` trigger while
`processing` is set is a no-op that changes nothing and spawns nothing;
(b) over any sequence of triggers, a spawn never happens while a subprocess
is active (spawns and exits alternate, ending inactive); (c) the loop idles
only once its pending hint list is empty, i.e. after a task completes it
re-checks for more pending work before idling. -/
theorem single_flight_dispatch :
    (∀ (m : Nat) (envs : List CycleEnv) (s : WState),
       s.processing = true → kickM m envs s = (s, [])) ∧
    (∀ (m : Nat) (rounds : List (Option String × List CycleEnv)) (s : WState),
       flightState false (runRounds m rounds s).2 = some false) ∧
    (∀ (m : Nat) (envs : List CycleEnv) (s : WState),
       (kickM m envs s).2.getLast? = some WEvent.idleEv →
       (kickM m envs s).1.pendingQueue = []) := by
  refine ⟨?_, flightState_runRounds, ?_⟩
  · intro m envs s h
    cases envs with
    | nil => rfl
    | cons e rest => simp [kickM, h]
  · intro m envs s
    induction envs generalizing s with
    | nil => simp [kickM]
    | cons e rest ih =>
      by_cases hg : (s.processing || s.stopped || s.pendingQueue.isEmpty) = true
      · simp [kickM, hg]
      · obtain ⟨hp, hs2, hq⟩ := guard_parts s hg
        rcases e with _ | ⟨r, penv⟩
        · simp [kickM, hg]
        · rcases r with _ | t
          · simp [kickM, hg]
          · by_cases hr : 0 < m ∧ m ≤ t.attempts.length
            · rw [kickM_skip_eq m rest s t penv hp hs2 hq hr]
              simp
            · rw [kickM_dispatch_eq m rest s t penv hp hs2 hq hr]
              split
              next hcond =>
                intro hlast
                dsimp only at hlast ⊢
                by_cases h2 :
                    (kickM m rest (afterDispatchState s t)).2 = []
                · rw [h2, List.append_nil] at hlast
                  obtain ⟨hne, heq⟩ := List.mem_getLast?_eq_getLast hlast
                  exact absurd (heq ▸ List.getLast_mem hne)
                    (idle_not_mem_processTaskM t penv)
                · rw [List.getLast?_append_of_ne_nil _ h2] at hlast
                  exact ih _ hlast
              next hcond =>
                intro _
                have hie : (s.pendingQueue.filter (· != t.id)).isEmpty = true := by
                  rcases hie0 : (s.pendingQueue.filter (· != t.id)).isEmpty
                  · exact absurd (by simp [afterDispatchState, hs2, hie0])
                      hcond
                  · rfl
                show (afterDispatchState s t).pendingQueue = []
                simpa [afterDispatchState, List.isEmpty_iff] using hie

/-- Witness for C6 at concrete states: a trigger while `processing` is set
changes nothing, and a cycle that drains the last hinted task idles with an
empty hint list. -/
theorem single_flight_dispatch_witness :
    kickM 2 [CycleEnv.fetchErr] ⟨["x"], true, false, none⟩ =
      (⟨["x"], true, false, none⟩, []) ∧
    (kickM 2 [CycleEnv.fetchOk none ⟨true, none⟩]
        ⟨["x"], false, false, none⟩).1.pendingQueue = [] :=
  ⟨single_flight_dispatch.1 2 [CycleEnv.fetchErr]
      ⟨["x"], true, false, none⟩ rfl,
   single_flight_dispatch.2.2 2 [CycleEnv.fetchOk none ⟨true, none⟩]
      ⟨["x"], false, false, none⟩ (by decide)⟩

/-- C7: a cycle whose fetched candidate has at least `maxRetries` attempts
(with a positive configured limit) skips it: the trace is exactly the skip
log entry — no claim PUT, no status change, no spawn — and the task's id is
removed from the local hint list. -/
theorem retry_limit_skips (m : Nat) (rest : List CycleEnv) (s : WState)
    (t : Task) (penv : ProcEnv)
    (hp : s.processing = false) (hs : s.stopped = false)
    (hq : s.pendingQueue ≠ [])
    (hm : 0 < m) (ha : m ≤ t.attempts.length) :
    kickM m (CycleEnv.fetchOk (some t) penv :: rest) s =
      ({ s with pendingQueue := s.pendingQueue.filter (· != t.id),
                processing := false },
       [WEvent.skipEv t.id]) ∧
    (∀ i, WEvent.spawnEv i ∉
       (kickM m (CycleEnv.fetchOk (some t) penv :: rest) s).2) ∧
    (∀ i st ok, WEvent.putStatusEv i st ok ∉
       (kickM m (CycleEnv.fetchOk (some t) penv :: rest) s).2) := by
  have hq2 : s.pendingQueue.isEmpty = false := by
    rcases hpq : s.pendingQueue with _ | ⟨a, as⟩
    · exact absurd hpq hq
    · rfl
  have heq := kickM_skip_eq m rest s t penv hp hs hq2 ⟨hm, ha⟩
  refine ⟨heq, ?_, ?_⟩ <;> rw [heq] <;> simp

/-- A task already rejected twice: at the default retry limit of 2. -/
def overTask : Task :=
  { mkTask "a" TaskPriority.medium 10 with
    attempts := [⟨"", [], "r", none, 1⟩, ⟨"", [], "r", none, 2⟩] }

/-- Witness for C7 with `maxRetries = 2` and a task with two attempts. -/
theorem retry_limit_skips_witness :
    kickM 2 (CycleEnv.fetchOk (some overTask) ⟨true, none⟩ :: [])
        ⟨["a", "b"], false, false, none⟩ =
      ({ (⟨["a", "b"], false, false, none⟩ : WState) with
         pendingQueue := ["a", "b"].filter (· != overTask.id),
         processing := false },
       [WEvent.skipEv overTask.id]) ∧
    (∀ i, WEvent.spawnEv i ∉
       (kickM 2 (CycleEnv.fetchOk (some overTask) ⟨true, none⟩ :: [])
         ⟨["a", "b"], false, false, none⟩).2) ∧
    (∀ i st ok, WEvent.putStatusEv i st ok ∉
       (kickM 2 (CycleEnv.fetchOk (some overTask) ⟨true, none⟩ :: [])
         ⟨["a", "b"], false, false, none⟩).2) :=
  retry_limit_skips 2 [] ⟨["a", "b"], false, false, none⟩ overTask
    ⟨true, none⟩ rfl rfl (by decide) (by decide) (by decide)

/-- C8: `processTask` always issues the claim PUT (`status := in_progress`)
as its first action, before any spawn; and in every execution where the
claim fails, the trace is that single failed PUT — nothing is spawned and no
further request is made for the task in that cycle. -/
theorem claim_precedes_spawn (t : Task) (penv : ProcEnv)
    (post : Option String) :
    (processTaskM t penv).head? =
      some (WEvent.putStatusEv t.id "in_progress" penv.claimOk) ∧
    processTaskM t ⟨false, post⟩ =
      [WEvent.putStatusEv t.id "in_progress" false] ∧
    ∀ i, WEvent.spawnEv i ∉ processTaskM t ⟨false, post⟩ := by
  refine ⟨?_, rfl, ?_⟩
  · rcases penv with ⟨co, p2⟩
    cases co <;> rfl
  · intro i
    simp [processTaskM]

/-- The environment keeps answering `GET /api/tasks/next` with the fixed top
candidate `t` (or fails): `t` remains the globally next pending task. -/
def returnsTopOnly (t : Task) : CycleEnv → Bool
  | CycleEnv.fetchErr => true
  | CycleEnv.fetchOk r _ => r == some t

/-- One `kickProcessing` invocation during which the top candidate is a
fixed over-limit task dispatches nothing at all. -/
theorem kickM_no_dispatch_over_limit (m : Nat) (t : Task)
    (hm : 0 < m) (ha : m ≤ t.attempts.length)
    (envs : List CycleEnv) (s : WState)
    (henv : ∀ e ∈ envs, returnsTopOnly t e = true) :
    (∀ i, WEvent.spawnEv i ∉ (kickM m envs s).2) ∧
    (∀ i st ok, WEvent.putStatusEv i st ok ∉ (kickM m envs s).2) := by
  cases envs with
  | nil => simp [kickM]
  | cons e rest =>
    by_cases hg : (s.processing || s.stopped || s.pendingQueue.isEmpty) = true
    · simp [kickM, hg]
    · obtain ⟨hp, hs2, hq⟩ := guard_parts s hg
      rcases e with _ | ⟨r, penv⟩
      · simp [kickM, hg]
      · have hre := henv _ (List.mem_cons_self _ _)
        have hr2 : r = some t := by simpa [returnsTopOnly] using hre
        subst hr2
        rw [kickM_skip_eq m rest s t penv hp hs2 hq ⟨hm, ha⟩]
        simp

/-- C10: while the single globally-next pending candidate is a task at or
over the retry limit, an entire run of the dispatch loop — any sequence of
triggers, enqueues and cycles — spawns nothing and issues no status update:
the skip path does not fall through to any other pending task. -/
theorem over_limit_blocks_all_dispatch (m : Nat) (t : Task)
    (hm : 0 < m) (ha : m ≤ t.attempts.length)
    (rounds : List (Option String × List CycleEnv)) (s : WState)
    (henv : ∀ r ∈ rounds, ∀ e ∈ r.2, returnsTopOnly t e = true) :
    (∀ i, WEvent.spawnEv i ∉ (runRounds m rounds s).2) ∧
    (∀ i st ok, WEvent.putStatusEv i st ok ∉ (runRounds m rounds s).2) := by
  induction rounds generalizing s with
  | nil => simp [runRounds]
  | cons r more ih =>
    rcases r with ⟨trig, env⟩
    have hhead : ∀ e ∈ env, returnsTopOnly t e = true :=
      fun e he => henv _ (List.mem_cons_self _ _) e he
    have htail : ∀ r ∈ more, ∀ e ∈ r.2, returnsTopOnly t e = true :=
      fun r hr e he => henv r (List.mem_cons_of_mem _ hr) e he
    simp only [runRounds]
    constructor
    · intro i
      rw [List.mem_append, not_or]
      exact ⟨(kickM_no_dispatch_over_limit m t hm ha env _ hhead).1 i,
             (ih _ htail).1 i⟩
    · intro i st ok
      rw [List.mem_append, not_or]
      exact ⟨(kickM_no_dispatch_over_limit m t hm ha env _ hhead).2 i st ok,
             (ih _ htail).2 i st ok⟩

/-- Witness for C10: two rounds — an enqueue-triggered cycle fetching the
over-limit task, then a cycle whose fetch fails — spawn nothing and update
no status. -/
theorem over_limit_blocks_all_dispatch_witness :
    (∀ i, WEvent.spawnEv i ∉
      (runRounds 2
        [(some "b", [CycleEnv.fetchOk (some overTask) ⟨true, none⟩]),
         (none, [CycleEnv.fetchErr])]
        ⟨["a"], false, false, none⟩).2) ∧
    (∀ i st ok, WEvent.putStatusEv i st ok ∉
      (runRounds 2
        [(some "b", [CycleEnv.fetchOk (some overTask) ⟨true, none⟩]),
         (none, [CycleEnv.fetchErr])]
        ⟨["a"], false, false, none⟩).2) :=
  over_limit_blocks_all_dispatch 2 overTask (by decide) (by decide)
    [(some "b", [CycleEnv.fetchOk (some overTask) ⟨true, none⟩]),
     (none, [CycleEnv.fetchErr])]
    ⟨["a"], false, false, none⟩ (by decide)

end Nitpix